import Mathlib

/-!
# Verification of the lab paper-triage application (`src/app.py`)

Shallow embedding of the data-manipulating core of `app.py`:

* the three flat tables (`papers`, `interest`, `seen`) become lists of rows;
* the pandas dataframe manipulations of `batch_update_all`,
  `get_shortlist_data` and `get_fresh_stream_by_date` become list
  operations (filters, folds, insertion sort standing for `sort_values`);
* the paginated biorxiv fetch of `fetch_papers_range` becomes a fuelled
  loop over an abstract API `Nat → Except Unit ApiResponse` (the `.error`
  case standing for an exception raised by `requests.get(url).json()` or
  by indexing into a malformed response);
* publication dates are modelled as `Nat` day codes: the app stores ISO
  `YYYY-MM-DD` strings, on which lexicographic string order (used by
  `sort_values(by='date')`) and chronological order (used after
  `pd.to_datetime`) coincide, so one order-isomorphic copy serves both.

Python exceptions inside the fetch loop are modelled explicitly: a page
whose request fails is `.error`, and a paper record whose `category` key
is absent (so that `p.get('category').lower()` raises `AttributeError`)
has `category = none`, making the page processing stop part-way.
-/

namespace LabTriage

/-- A row of the `interest` worksheet: `["doi", "user", "timestamp"]`. -/
structure VoteRow where
  doi : String
  user : String
  timestamp : String
deriving DecidableEq, Repr

/-- A row of the `seen` worksheet: `["doi", "user"]`. -/
structure SeenRow where
  doi : String
  user : String
deriving DecidableEq, Repr

/-- A row of the `papers` worksheet:
`["doi", "title", "authors", "abstract", "link", "category", "date"]`.
`date` is a day code (see the module docstring). -/
structure PaperRow where
  doi : String
  title : String
  authors : String
  abstract : String
  link : String
  category : String
  date : Nat
deriving DecidableEq, Repr

/-- The three worksheets of the backing spreadsheet. -/
structure AppState where
  papers : List PaperRow
  interest : List VoteRow
  seen : List SeenRow
deriving DecidableEq, Repr

/-! ## `batch_update_all` (app.py lines 59-111)

The loop body over `all_displayed_dois` keeps a dataframe `df` (the
interest rows, with deletions applied), a list `rows_to_add`, a change
counter and the `modified` flag.  `current_user_votes` is the snapshot of
the user's voted dois taken before the loop. -/

/-- Accumulator of the `for doi in all_displayed_dois` loop. -/
structure BatchAcc where
  df : List VoteRow
  rowsToAdd : List VoteRow
  changes : Nat
  modified : Bool
deriving Repr

/-- One iteration of the loop body (app.py lines 81-92). -/
def batchStep (user timestamp : String) (selected currentUserVotes : List String)
    (acc : BatchAcc) (doi : String) : BatchAcc :=
  let isChecked := doi ∈ selected
  let alreadyVoted := doi ∈ currentUserVotes
  if isChecked ∧ ¬ alreadyVoted then
    { acc with rowsToAdd := acc.rowsToAdd ++ [⟨doi, user, timestamp⟩],
               changes := acc.changes + 1, modified := true }
  else if ¬ isChecked ∧ alreadyVoted then
    { acc with df := acc.df.filter (fun r => decide ¬(r.doi = doi ∧ r.user = user)),
               changes := acc.changes + 1, modified := true }
  else acc

/-- `batch_update_all(user, selected_dois, trashed_dois, all_displayed_dois)`.
`timestamp` stands for `datetime.now().strftime(...)`.  Returns the new
state and `changes_count`.  When `modified` the interest sheet is rewritten
as the filtered dataframe followed by `rows_to_add` (`pd.concat`); when not
modified the sheet is untouched, but then no deletion happened and
`rows_to_add = []`, so the uniform `df ++ rowsToAdd` is the sheet contents
in both cases.  Trash rows are appended to the `seen` sheet, one `[doi,
user]` row per trashed doi (appending the empty batch is the identity,
matching the `if trashed_dois:` guard). -/
def batch_update_all (user : String) (selected trashed allDisplayed : List String)
    (timestamp : String) (st : AppState) : AppState × Nat :=
  let currentUserVotes := (st.interest.filter (fun r => decide (r.user = user))).map (·.doi)
  let acc := allDisplayed.foldl (batchStep user timestamp selected currentUserVotes)
    ⟨st.interest, [], 0, false⟩
  let interest' := acc.df ++ acc.rowsToAdd
  let seen' := st.seen ++ trashed.map (fun d => ⟨d, user⟩)
  let changes := acc.changes + trashed.length
  ({ papers := st.papers, interest := interest', seen := seen' }, changes)

/-- `True` iff the interest table contains a vote row `(d, u)`. -/
def hasVote (l : List VoteRow) (d u : String) : Prop :=
  ∃ r ∈ l, r.doi = d ∧ r.user = u

instance (l : List VoteRow) (d u : String) : Decidable (hasVote l d u) := by
  unfold hasVote; infer_instance

/-- At most one vote row per `(doi, user)` pair. -/
def pairUnique (l : List VoteRow) : Prop :=
  l.Pairwise (fun a b => ¬(a.doi = b.doi ∧ a.user = b.user))

instance (l : List VoteRow) : Decidable (pairUnique l) := by
  unfold pairUnique; infer_instance

/-! ## `get_shortlist_data` (app.py lines 114-149) and
`get_fresh_stream_by_date` (app.py lines 151-181)

`pd.DataFrame.drop_duplicates(subset=['doi'])` keeps the first row per doi;
`sort_values` is modelled by `List.insertionSort` (a sort by the same key;
the source's quicksort is likewise not stable, and no claim concerns the
relative order of key-equal rows).  The frozen `st.session_state
['shortlist_order']` re-sort via `pd.Categorical` sorts by the index of the
doi in the frozen list, with dois absent from it (NaN category) last —
exactly `List.indexOf`, which returns the list length for absent
elements. -/

/-- `drop_duplicates(subset=['doi'])`: keep the first row per doi.  `seen`
is the accumulator of dois already kept. -/
def dedupByDoi : List PaperRow → List String → List PaperRow
  | [], _ => []
  | p :: ps, seen =>
    if p.doi ∈ seen then dedupByDoi ps seen else p :: dedupByDoi ps (p.doi :: seen)

/-- A row of the shortlist dataframe: a paper joined with its vote stats
and the current user's vote flag. -/
structure ShortRow where
  paper : PaperRow
  total_votes : Nat
  voter_names : String
  my_vote : Bool
deriving DecidableEq, Repr

/-- `total_votes=('user', 'count')` of the doi group. -/
def votesFor (interest : List VoteRow) (d : String) : Nat :=
  (interest.filter (fun r => decide (r.doi = d))).length

/-- `voter_names=('user', lambda x: ','.join(x))` of the doi group. -/
def voterNames (interest : List VoteRow) (d : String) : String :=
  String.intercalate "," ((interest.filter (fun r => decide (r.doi = d))).map (·.user))

/-- `sort_values(by=['total_votes', 'date'], ascending=[False, False])`:
vote count descending, ties by publication date descending. -/
def shortRel (a b : ShortRow) : Prop :=
  b.total_votes < a.total_votes ∨ (a.total_votes = b.total_votes ∧ b.paper.date ≤ a.paper.date)

instance : DecidableRel shortRel := fun a b => by unfold shortRel; infer_instance

instance : IsTotal ShortRow shortRel := ⟨by intro a b; unfold shortRel; omega⟩

instance : IsTrans ShortRow shortRel := ⟨by intro a b c; unfold shortRel; omega⟩

/-- The `pd.Categorical` re-sort key: position of the doi in the frozen
session order, absent dois (NaN) last. -/
def frozenRel (ord : List String) (a b : ShortRow) : Prop :=
  ord.indexOf a.paper.doi ≤ ord.indexOf b.paper.doi

instance (ord : List String) : DecidableRel (frozenRel ord) := fun a b => by
  unfold frozenRel; infer_instance

instance (ord : List String) : IsTotal ShortRow (frozenRel ord) :=
  ⟨fun a b => Nat.le_total _ _⟩

instance (ord : List String) : IsTrans ShortRow (frozenRel ord) :=
  ⟨fun _ _ _ => Nat.le_trans⟩

/-- `sort_values(by='date', ascending=False)` for the fresh stream. -/
def dateDesc (a b : PaperRow) : Prop := b.date ≤ a.date

instance : DecidableRel dateDesc := fun a b => by unfold dateDesc; infer_instance

instance : IsTotal PaperRow dateDesc := ⟨fun a b => Nat.le_total _ _⟩

instance : IsTrans PaperRow dateDesc := ⟨fun _ _ _ h h' => Nat.le_trans h' h⟩

/-- `get_shortlist_data(current_user)`.  `frozenOrder` is the session's
frozen `shortlist_order` if present.  Reads only the `papers` and
`interest` worksheets (`seen` is discarded by the `_` pattern in the
source).  Returns `[]` when the papers table is empty and also when the
interest table is empty (the source builds zero-vote columns and then
returns an empty dataframe). -/
def get_shortlist_data (current_user : String) (frozenOrder : Option (List String))
    (st : AppState) : List ShortRow :=
  if st.papers = [] then []
  else if st.interest = [] then []
  else
    let dfPapers := dedupByDoi st.papers []
    let shortlist := (dfPapers.filter (fun p => decide (∃ r ∈ st.interest, r.doi = p.doi))).map
      (fun p => { paper := p, total_votes := votesFor st.interest p.doi,
                  voter_names := voterNames st.interest p.doi, my_vote := false })
    let sorted := List.insertionSort shortRel shortlist
    let reordered := match frozenOrder with
      | some ord => List.insertionSort (frozenRel ord) sorted
      | none => sorted
    reordered.map (fun row =>
      { row with my_vote := decide (row.paper.doi ∈
          (st.interest.filter (fun r => decide (r.user = current_user))).map (·.doi)) })

/-- `get_fresh_stream_by_date(current_user, start_date, end_date)`: papers
(first row per doi) in the inclusive date window, with no vote row by any
user and no `seen` row by the current user, date descending.  The source
additionally attaches constant `my_vote=False` and `total_votes=0` columns,
which carry no information and are dropped here. -/
def get_fresh_stream_by_date (current_user : String) (start_date end_date : Nat)
    (st : AppState) : List PaperRow :=
  if st.papers = [] then []
  else
    let dfP := dedupByDoi st.papers []
    let voted : List String := st.interest.map (·.doi)
    let mySeen : List String :=
      (st.seen.filter (fun r => decide (r.user = current_user))).map (·.doi)
    let fresh := dfP.filter (fun p =>
      decide ((start_date ≤ p.date ∧ p.date ≤ end_date) ∧ p.doi ∉ voted ∧ p.doi ∉ mySeen))
    List.insertionSort dateDesc fresh

/-! ## `fetch_papers_range` (app.py lines 183-230)

The external API is a function from the pagination cursor to either a
response or `.error` (an exception raised by `requests.get(url).json()`, or
when indexing a malformed `messages` entry).  A paper record always has
the keys accessed with `p[...]` (`doi`, `title`, `authors`, `abstract`,
`date`); `category` is read with `p.get('category')`, so it may be absent
(`none`), in which case `.lower()` raises `AttributeError` part-way through
the page and the `except` clause breaks the loop, keeping the rows already
collected. -/

/-- One record of the biorxiv `collection`. -/
structure ApiPaper where
  doi : String
  title : String
  authors : String
  abstract : String
  category : Option String
  date : Nat
deriving DecidableEq, Repr

/-- One page of the biorxiv details endpoint. -/
structure ApiResponse where
  status : Option String
  collection : List ApiPaper
deriving DecidableEq, Repr

/-- Python `str.lower()`, character by character.  (Equal to
`String.toLower`, but defined structurally so that the kernel can evaluate
it on concrete inputs.) -/
def strLower (s : String) : String := ⟨s.data.map Char.toLower⟩

/-- The row appended to the papers sheet for an accepted record with
category string `c` (app.py lines 215-216). -/
def mkPaperRow (p : ApiPaper) (c : String) : PaperRow :=
  ⟨p.doi, p.title, p.authors, p.abstract,
    "https://www.biorxiv.org/content/" ++ p.doi ++ "v1", c, p.date⟩

/-- The `for p in papers` inner loop (app.py lines 211-217).  Returns the
updated `seen_dois`, the updated `new_rows`, and `false` when a record with
a missing category raised part-way (the rows collected before the raise are
kept, as they are in the mutable Python lists). -/
def processPage : List ApiPaper → List String → List PaperRow →
    List String × List PaperRow × Bool
  | [], seen, acc => (seen, acc, true)
  | p :: ps, seen, acc =>
    match p.category with
    | none => (seen, acc, false)
    | some c =>
      if strLower c = "neuroscience" ∧ p.doi ∉ seen then
        processPage ps (p.doi :: seen) (acc ++ [mkPaperRow p c])
      else processPage ps seen acc

/-- The `for i in range(5)` page loop (app.py lines 202-222).  `fuel` is
the remaining iteration budget, `reqs` counts HTTP requests issued.
Returns the collected `new_rows` and the request count.  Breaks on a
request exception, a `'no posts found'` status, an empty collection, a
mid-page exception, or a page shorter than 100 records. -/
def fetchLoop (api : Nat → Except Unit ApiResponse) :
    Nat → Nat → List String → List PaperRow → Nat → List PaperRow × Nat
  | 0, _, _, acc, reqs => (acc, reqs)
  | fuel + 1, cursor, seen, acc, reqs =>
    match api cursor with
    | .error _ => (acc, reqs + 1)
    | .ok resp =>
      if resp.status = some "no posts found" then (acc, reqs + 1)
      else if resp.collection = [] then (acc, reqs + 1)
      else
        let step := processPage resp.collection seen acc
        if step.2.2 = false then (step.2.1, reqs + 1)
        else if resp.collection.length < 100 then (step.2.1, reqs + 1)
        else fetchLoop api fuel (cursor + resp.collection.length) step.1 step.2.1 (reqs + 1)

/-- `fetch_papers_range(start_date, end_date)`: seed `seen_dois` with the
dois already in the papers sheet, run at most 5 pages from cursor 0, append
the collected rows and return how many were appended (`0` when none; the
`if new_rows:` guard coincides with appending the empty list). -/
def fetch_papers_range (api : Nat → Except Unit ApiResponse) (st : AppState) :
    AppState × Nat :=
  let seenDois : List String := st.papers.map (·.doi)
  let res := fetchLoop api 5 0 seenDois [] 0
  ({ st with papers := st.papers ++ res.1 }, res.1.length)

/-- Number of HTTP requests issued by one `fetch_papers_range` call. -/
def fetchRequests (api : Nat → Except Unit ApiResponse) (st : AppState) : Nat :=
  (fetchLoop api 5 0 (st.papers.map (·.doi)) [] 0).2

/-- Replace every failing request of `api` by a well-formed response with
an empty collection. -/
def errToEmpty (api : Nat → Except Unit ApiResponse) : Nat → Except Unit ApiResponse :=
  fun c => match api c with
  | .error _ => .ok ⟨none, []⟩
  | .ok r => .ok r

/-- Concrete fixture: page 0 holds one well-formed neuroscience record
followed by a record with no category key; later requests fail. -/
def apiPartialPage : Nat → Except Unit ApiResponse := fun c =>
  if c = 0 then .ok ⟨none, [⟨"10.9", "T", "A", "ab", some "Neuroscience", 7⟩,
    ⟨"10.8", "T2", "A2", "ab2", none, 7⟩]⟩
  else .error ()

/-- Concrete fixture: every request answers `'no posts found'`. -/
def apiNoPosts : Nat → Except Unit ApiResponse :=
  fun _ => .ok ⟨some "no posts found", []⟩

/-! ## Proofs -/

/-! ### Closed forms of the `batch_update_all` fold -/

/-- `rows_to_add` at loop end: one row per displayed doi that is checked but
was not in the snapshot of the user's votes, in display order. -/
theorem foldl_batchStep_rowsToAdd (u ts : String) (sel cuv : List String) :
    ∀ (l : List String) (acc : BatchAcc),
      (l.foldl (batchStep u ts sel cuv) acc).rowsToAdd
        = acc.rowsToAdd
          ++ (l.filter (fun d => decide (d ∈ sel ∧ d ∉ cuv))).map (fun d => ⟨d, u, ts⟩)
  | [], acc => by simp
  | c :: l, acc => by
    by_cases hc : c ∈ sel <;> by_cases hv : c ∈ cuv <;>
      simp only [List.foldl_cons, batchStep, hc, hv, not_true_eq_false, not_false_eq_true,
        and_true, and_false, true_and, false_and, if_true, if_false, List.filter_cons,
        decide_eq_true_eq, decide_eq_false_iff_not] <;>
      simp only [foldl_batchStep_rowsToAdd u ts sel cuv l] <;>
      simp [hc, hv]

/-- The dataframe at loop end: the original rows, minus this user's rows
whose doi is displayed, unchecked, and in the vote snapshot. -/
theorem foldl_batchStep_df (u ts : String) (sel cuv : List String) :
    ∀ (l : List String) (acc : BatchAcc),
      (l.foldl (batchStep u ts sel cuv) acc).df
        = acc.df.filter
            (fun r => decide ¬(r.user = u ∧ r.doi ∈ l.filter (fun d => decide (d ∉ sel ∧ d ∈ cuv))))
  | [], acc => by simp
  | c :: l, acc => by
    by_cases hc : c ∈ sel <;> by_cases hv : c ∈ cuv <;>
      simp only [List.foldl_cons, batchStep, hc, hv, not_true_eq_false, not_false_eq_true,
        and_true, and_false, true_and, false_and, if_true, if_false] <;>
      simp only [foldl_batchStep_df u ts sel cuv l] <;>
      simp only [List.filter_cons, hc, hv, not_true_eq_false, not_false_eq_true, and_true,
        and_false, true_and, false_and, decide_True, decide_False, if_true, if_false,
        List.filter_filter]
    case pos => rfl
    case neg => rfl
    case pos =>
      apply List.filter_congr
      intro r _
      by_cases h1 : r.user = u <;> by_cases h2 : r.doi = c <;>
        simp [h1, h2]
    case neg => rfl

/-- Membership in the `current_user_votes` snapshot
(`df[df['user'] == user]['doi'].tolist()`). -/
theorem mem_voteSnapshot {interest : List VoteRow} {u d : String} :
    d ∈ (interest.filter (fun r => decide (r.user = u))).map (·.doi)
      ↔ ∃ r ∈ interest, r.user = u ∧ r.doi = d := by
  simp [List.mem_map, List.mem_filter, and_assoc]

theorem hasVote_append {A B : List VoteRow} {d u : String} :
    hasVote (A ++ B) d u ↔ hasVote A d u ∨ hasVote B d u := by
  constructor
  · rintro ⟨r, hr, h⟩
    rcases List.mem_append.mp hr with h1 | h1
    · exact Or.inl ⟨r, h1, h⟩
    · exact Or.inr ⟨r, h1, h⟩
  · rintro (⟨r, hr, h⟩ | ⟨r, hr, h⟩)
    · exact ⟨r, List.mem_append.mpr (.inl hr), h⟩
    · exact ⟨r, List.mem_append.mpr (.inr hr), h⟩

/-- C1. Vote delta-sync correctness: for every user, displayed doi list,
subset `selected` of it and prior interest table, after `batch_update_all`
the interest table has a `(doi, user)` vote row iff `doi ∈ selected`, for
every displayed doi; and this user's vote rows for undisplayed dois are
unchanged (as the exact row list, hence also as a multiset). -/
theorem batch_vote_delta_sync (u ts : String) (selected trashed allDisplayed : List String)
    (st : AppState) (hsub : ∀ d ∈ selected, d ∈ allDisplayed) :
    (∀ d ∈ allDisplayed,
      (hasVote (batch_update_all u selected trashed allDisplayed ts st).1.interest d u
        ↔ d ∈ selected)) ∧
    (∀ d, d ∉ allDisplayed →
      (batch_update_all u selected trashed allDisplayed ts st).1.interest.filter
          (fun r => decide (r.doi = d ∧ r.user = u))
        = st.interest.filter (fun r => decide (r.doi = d ∧ r.user = u))) := by
  simp only [batch_update_all, foldl_batchStep_df, foldl_batchStep_rowsToAdd, List.nil_append]
  constructor
  · intro d hd
    rw [hasVote_append]
    constructor
    · rintro (⟨r, hr, hdoi, huser⟩ | ⟨r, hr, hdoi, huser⟩)
      · rw [List.mem_filter, decide_eq_true_eq] at hr
        obtain ⟨hri, hk⟩ := hr
        by_contra hns
        apply hk
        refine ⟨huser, ?_⟩
        rw [List.mem_filter, decide_eq_true_eq, hdoi]
        exact ⟨hd, hns, mem_voteSnapshot.mpr ⟨r, hri, huser, hdoi⟩⟩
      · rw [List.mem_map] at hr
        obtain ⟨d', hd', hmk⟩ := hr
        rw [List.mem_filter, decide_eq_true_eq] at hd'
        cases hmk
        exact hdoi ▸ hd'.2.1
    · intro hds
      by_cases hcv : d ∈ (st.interest.filter (fun r => decide (r.user = u))).map (·.doi)
      · left
        obtain ⟨r, hri, huser, hdoi⟩ := mem_voteSnapshot.mp hcv
        refine ⟨r, ?_, hdoi, huser⟩
        rw [List.mem_filter, decide_eq_true_eq]
        refine ⟨hri, ?_⟩
        rintro ⟨-, hmem⟩
        rw [List.mem_filter, decide_eq_true_eq, hdoi] at hmem
        exact hmem.2.1 hds
      · right
        refine ⟨⟨d, u, ts⟩, ?_, rfl, rfl⟩
        rw [List.mem_map]
        exact ⟨d, List.mem_filter.mpr ⟨hd, by simp [hds, hcv]⟩, rfl⟩
  · intro d hd
    rw [List.filter_append]
    have htoAdd : ((allDisplayed.filter
        (fun d' => decide (d' ∈ selected ∧ d' ∉ (st.interest.filter
          (fun r => decide (r.user = u))).map (·.doi)))).map
            (fun d' => (⟨d', u, ts⟩ : VoteRow))).filter
          (fun r => decide (r.doi = d ∧ r.user = u)) = [] := by
      rw [List.filter_eq_nil_iff]
      rintro a ha
      rw [List.mem_map] at ha
      obtain ⟨d', hd', hmk⟩ := ha
      rw [List.mem_filter] at hd'
      cases hmk
      simp only [decide_eq_true_eq, not_and]
      intro hdd
      exact absurd (hdd ▸ hd'.1) hd
    rw [htoAdd, List.append_nil, List.filter_filter]
    apply List.filter_congr
    intro r _
    by_cases h1 : r.doi = d <;> by_cases h2 : r.user = u <;>
      simp [h1, h2, List.mem_filter, hd]

/-- Witness for C1 at a concrete input. -/
theorem batch_vote_delta_sync_witness :
    (∀ d ∈ (["10.1"] : List String), d ∈ (["10.1", "10.2"] : List String)) ∧
      hasVote (batch_update_all "Albert" ["10.1"] [] ["10.1", "10.2"] "t"
        ⟨[], [], []⟩).1.interest "10.1" "Albert" :=
  ⟨by decide,
    ((batch_vote_delta_sync "Albert" "t" ["10.1"] [] ["10.1", "10.2"] ⟨[], [], []⟩
      (by decide)).1 "10.1" (by decide)).mpr (by decide)⟩

/-- C2, counterexample to the claim as stated: with an empty (hence
pairwise-unique) prior interest table, a call whose `all_displayed_dois`
lists the same doi twice, checked, inserts two identical vote rows, so the
result has two rows for one `(doi, user)` pair. -/
theorem batch_pair_unique_cex :
    pairUnique (AppState.mk [] [] []).interest ∧
      ¬ pairUnique (batch_update_all "Albert" ["10.1"] [] ["10.1", "10.1"] "t"
        ⟨[], [], []⟩).1.interest := by decide

/-- C2, amended: if each `(doi, user)` pair occurs at most once in the prior
interest table and the displayed dois are pairwise distinct (they are in the
app: the shortlist and the fresh stream are each deduplicated by doi and are
disjoint), then `batch_update_all` preserves per-pair uniqueness, with no
stored constraint assumed. -/
theorem batch_pair_unique (u ts : String) (sel tr disp : List String) (st : AppState)
    (hnd : disp.Nodup) (hu : pairUnique st.interest) :
    pairUnique (batch_update_all u sel tr disp ts st).1.interest := by
  simp only [batch_update_all, foldl_batchStep_df, foldl_batchStep_rowsToAdd, List.nil_append]
  rw [pairUnique, List.pairwise_append]
  refine ⟨hu.filter _, ?_, ?_⟩
  · rw [List.pairwise_map]
    exact (hnd.filter _).imp (by rintro a b hab ⟨h1, -⟩; exact hab h1)
  · intro a ha b hb
    rw [List.mem_filter] at ha
    rw [List.mem_map] at hb
    obtain ⟨d', hd', hmk⟩ := hb
    rw [List.mem_filter, decide_eq_true_eq] at hd'
    cases hmk
    rintro ⟨hdoi, huser⟩
    exact hd'.2.2 (mem_voteSnapshot.mpr ⟨a, ha.1, huser, hdoi⟩)

/-- Witness for the amended C2 at a concrete input. -/
theorem batch_pair_unique_witness :
    (["10.1"] : List String).Nodup ∧ pairUnique ([] : List VoteRow) ∧
      pairUnique (batch_update_all "Albert" ["10.1"] [] ["10.1"] "t" ⟨[], [], []⟩).1.interest :=
  ⟨by decide, by decide,
    batch_pair_unique "Albert" "t" ["10.1"] [] ["10.1"] ⟨[], [], []⟩ (by decide) (by decide)⟩

/-- C10. Frame over other users: `batch_update_all` preserves, as a
multiset (in fact as an ordered list), the vote rows of every user other
than the caller, even though it rewrites the whole interest sheet. -/
theorem batch_other_users_frame (u ts : String) (sel tr disp : List String) (st : AppState) :
    ((batch_update_all u sel tr disp ts st).1.interest.filter
        (fun r => decide ¬(r.user = u)) : Multiset VoteRow)
      = (st.interest.filter (fun r => decide ¬(r.user = u)) : Multiset VoteRow) := by
  congr 1
  simp only [batch_update_all, foldl_batchStep_df, foldl_batchStep_rowsToAdd, List.nil_append]
  rw [List.filter_append]
  have htoAdd : ((disp.filter
      (fun d => decide (d ∈ sel ∧ d ∉ (st.interest.filter
        (fun r => decide (r.user = u))).map (·.doi)))).map
          (fun d => (⟨d, u, ts⟩ : VoteRow))).filter
        (fun r => decide ¬(r.user = u)) = [] := by
    rw [List.filter_eq_nil_iff]
    rintro a ha
    rw [List.mem_map] at ha
    obtain ⟨d', -, hmk⟩ := ha
    cases hmk
    simp
  rw [htoAdd, List.append_nil, List.filter_filter]
  apply List.filter_congr
  intro r _
  by_cases h1 : r.user = u <;> simp [h1]

/-- `drop_duplicates` keeps exactly the dois of the input that are not in
the accumulator: a row with doi `d` survives iff some input row has doi `d`
and `d` is not already accumulated. -/
theorem exists_mem_dedupByDoi :
    ∀ (l : List PaperRow) (seen : List String) (d : String),
      (∃ q ∈ dedupByDoi l seen, q.doi = d) ↔ (∃ q ∈ l, q.doi = d) ∧ d ∉ seen
  | [], seen, d => by simp [dedupByDoi]
  | p :: ps, seen, d => by
    by_cases hs : p.doi ∈ seen
    · rw [dedupByDoi, if_pos hs, exists_mem_dedupByDoi ps seen d]
      constructor
      · rintro ⟨⟨q, hq, hqd⟩, hds⟩
        exact ⟨⟨q, List.mem_cons_of_mem _ hq, hqd⟩, hds⟩
      · rintro ⟨⟨q, hq, hqd⟩, hds⟩
        rcases List.mem_cons.mp hq with h | h
        · subst h
          exact absurd (hqd ▸ hs) hds
        · exact ⟨⟨q, h, hqd⟩, hds⟩
    · rw [dedupByDoi, if_neg hs]
      constructor
      · rintro ⟨q, hq, hqd⟩
        rcases List.mem_cons.mp hq with h | h
        · subst h
          exact ⟨⟨q, List.mem_cons_self _ _, hqd⟩, hqd ▸ hs⟩
        · obtain ⟨⟨q', hq', hqd'⟩, hds⟩ :=
            (exists_mem_dedupByDoi ps (p.doi :: seen) d).mp ⟨q, h, hqd⟩
          exact ⟨⟨q', List.mem_cons_of_mem _ hq', hqd'⟩,
            fun hm => hds (List.mem_cons_of_mem _ hm)⟩
      · rintro ⟨⟨q, hq, hqd⟩, hds⟩
        rcases List.mem_cons.mp hq with h | h
        · subst h
          exact ⟨q, List.mem_cons_self _ _, hqd⟩
        · by_cases hpd : d = p.doi
          · exact ⟨p, List.mem_cons_self _ _, hpd.symm⟩
          · obtain ⟨q', hq', hqd'⟩ := (exists_mem_dedupByDoi ps (p.doi :: seen) d).mpr
              ⟨⟨q, h, hqd⟩, by simp [List.mem_cons, hds, hpd]⟩
            exact ⟨q', List.mem_cons_of_mem _ hq', hqd'⟩

/-- C4. Fresh-stream definition: `get_fresh_stream_by_date` returns
exactly the papers (first row per doi) whose date lies in the inclusive
window, with zero vote rows by any user and no `(doi, current user)` row in
the seen table. -/
theorem fresh_stream_spec (u : String) (s e : Nat) (st : AppState) (p : PaperRow) :
    p ∈ get_fresh_stream_by_date u s e st
      ↔ p ∈ dedupByDoi st.papers []
        ∧ (s ≤ p.date ∧ p.date ≤ e)
        ∧ (∀ r ∈ st.interest, r.doi ≠ p.doi)
        ∧ (∀ r ∈ st.seen, ¬(r.user = u ∧ r.doi = p.doi)) := by
  by_cases hp : st.papers = []
  · simp [get_fresh_stream_by_date, hp, dedupByDoi]
  · simp only [get_fresh_stream_by_date, if_neg hp, List.mem_insertionSort, List.mem_filter,
      decide_eq_true_eq, List.mem_map, List.mem_cons]
    push_neg
    tauto

/-- C5, counterexample to the claim as stated: when the session already
holds a frozen `shortlist_order`, the rows come back in that frozen order,
not by vote count.  Here doi `"a"` (1 vote) is frozen before `"b"` (2
votes). -/
theorem shortlist_ranking_cex :
    ¬ List.Sorted shortRel (get_shortlist_data "U" (some ["a", "b"])
      ⟨[⟨"a", "", "", "", "", "", 1⟩, ⟨"b", "", "", "", "", "", 1⟩],
        [⟨"a", "U", "t"⟩, ⟨"b", "U", "t"⟩, ⟨"b", "V", "t"⟩], []⟩) := by decide

/-- C5, amended: on a session with no frozen `shortlist_order` (the first
render), the rows of `get_shortlist_data` are ordered by `total_votes`
non-increasing, ties broken by publication date descending; with a frozen
order present the rows follow the frozen order instead. -/
theorem shortlist_ranking (u : String) (st : AppState) :
    List.Sorted shortRel (get_shortlist_data u none st) := by
  by_cases h1 : st.papers = []
  · simp [get_shortlist_data, h1]
  by_cases h2 : st.interest = []
  · simp [get_shortlist_data, h1, h2]
  simp only [get_shortlist_data, if_neg h1, if_neg h2]
  rw [List.Sorted, List.pairwise_map]
  exact (List.sorted_insertionSort shortRel _).imp (fun hab => hab)

/-- C3. Dismissals never hide a voted paper: `get_shortlist_data` does not
read the seen table at all (first conjunct); every stored paper with at
least one vote row yields a shortlist row, whatever the seen table holds
(second conjunct); and a dismissal row `(d, w)` changes no user's fresh
stream unless it belongs to that user and `d` has zero votes (third
conjunct). -/
theorem shortlist_ignores_dismissals (u : String) (fo : Option (List String)) (st : AppState) :
    (∀ seenNew : List SeenRow,
      get_shortlist_data u fo { st with seen := seenNew } = get_shortlist_data u fo st) ∧
    (∀ p ∈ st.papers, (∃ r ∈ st.interest, r.doi = p.doi) →
      ∃ row ∈ get_shortlist_data u fo st, row.paper.doi = p.doi) ∧
    (∀ (v : String) (s e : Nat) (d w : String),
      (w ≠ v ∨ ∃ r ∈ st.interest, r.doi = d) →
      get_fresh_stream_by_date v s e { st with seen := ⟨d, w⟩ :: st.seen }
        = get_fresh_stream_by_date v s e st) := by
  refine ⟨fun _ => rfl, ?_, ?_⟩
  · intro p hp hv
    have hpe : st.papers ≠ [] := by
      rintro h
      rw [h] at hp
      exact absurd hp (List.not_mem_nil p)
    have hie : st.interest ≠ [] := by
      obtain ⟨r, hr, -⟩ := hv
      rintro h
      rw [h] at hr
      exact absurd hr (List.not_mem_nil r)
    obtain ⟨q, hq, hqd⟩ := (exists_mem_dedupByDoi st.papers [] p.doi).mpr
      ⟨⟨p, hp, rfl⟩, by simp⟩
    have hqf : q ∈ (dedupByDoi st.papers []).filter
        (fun p' => decide (∃ r ∈ st.interest, r.doi = p'.doi)) :=
      List.mem_filter.mpr ⟨hq, by rw [decide_eq_true_eq, hqd]; exact hv⟩
    cases fo with
    | none =>
      simp only [get_shortlist_data, if_neg hpe, if_neg hie]
      exact ⟨_, List.mem_map.mpr ⟨_, (List.mem_insertionSort _).mpr
        (List.mem_map.mpr ⟨q, hqf, rfl⟩), rfl⟩, hqd⟩
    | some ord =>
      simp only [get_shortlist_data, if_neg hpe, if_neg hie]
      exact ⟨_, List.mem_map.mpr ⟨_, (List.mem_insertionSort _).mpr
        ((List.mem_insertionSort _).mpr (List.mem_map.mpr ⟨q, hqf, rfl⟩)), rfl⟩, hqd⟩
  · intro v s e d w h
    by_cases hp : st.papers = []
    · simp [get_fresh_stream_by_date, hp]
    · simp only [get_fresh_stream_by_date, if_neg hp]
      rcases h with hw | hvote
      · have hrow : (((⟨d, w⟩ : SeenRow) :: st.seen).filter (fun r => decide (r.user = v)))
            = st.seen.filter (fun r => decide (r.user = v)) := by
          rw [List.filter_cons]
          simp [hw]
        rw [hrow]
      · apply congrArg (List.insertionSort dateDesc)
        apply List.filter_congr
        intro q hq
        by_cases hqd : q.doi = d
        · obtain ⟨r, hr, hrd⟩ := hvote
          have hqv : q.doi ∈ st.interest.map (·.doi) :=
            List.mem_map.mpr ⟨r, hr, by rw [hrd, hqd]⟩
          simp [hqv]
        · have hmem : (q.doi ∈ (((⟨d, w⟩ : SeenRow) :: st.seen).filter
              (fun r => decide (r.user = v))).map (·.doi))
              ↔ (q.doi ∈ (st.seen.filter (fun r => decide (r.user = v))).map (·.doi)) := by
            simp only [List.mem_map, List.mem_filter, List.mem_cons, decide_eq_true_eq]
            constructor
            · rintro ⟨r, ⟨hr | hr, hru⟩, hrd⟩
              · subst hr
                exact absurd hrd.symm hqd
              · exact ⟨r, ⟨hr, hru⟩, hrd⟩
            · rintro ⟨r, ⟨hr, hru⟩, hrd⟩
              exact ⟨r, ⟨Or.inr hr, hru⟩, hrd⟩
          rw [decide_eq_decide]
          exact and_congr_right fun _ => and_congr_right fun _ => not_congr hmem

/-- Witness for C3 at a concrete input: the paper is dismissed by Albert in
the seen table yet appears in Albert's shortlist because Brian voted for
it. -/
theorem shortlist_ignores_dismissals_witness :
    ∃ row ∈ get_shortlist_data "Albert" none
        ⟨[⟨"10.1", "T", "A", "ab", "L", "neuroscience", 3⟩], [⟨"10.1", "Brian", "t"⟩],
          [⟨"10.1", "Albert"⟩]⟩, row.paper.doi = "10.1" :=
  (shortlist_ignores_dismissals "Albert" none
      ⟨[⟨"10.1", "T", "A", "ab", "L", "neuroscience", 3⟩], [⟨"10.1", "Brian", "t"⟩],
        [⟨"10.1", "Albert"⟩]⟩).2.1
    ⟨"10.1", "T", "A", "ab", "L", "neuroscience", 3⟩ (by decide) (by decide)

/-- Inner-loop invariant: processing a page keeps every already-seen doi
seen, keeps every collected row's doi seen, keeps the collected dois
pairwise distinct, and only adds rows whose doi was unseen when the page
started. -/
theorem processPage_spec :
    ∀ (ps : List ApiPaper) (seen : List String) (acc : List PaperRow),
      (∀ r ∈ acc, r.doi ∈ seen) → (acc.map (·.doi)).Nodup →
      (∀ d ∈ seen, d ∈ (processPage ps seen acc).1)
        ∧ (∀ r ∈ (processPage ps seen acc).2.1, r.doi ∈ (processPage ps seen acc).1)
        ∧ ((processPage ps seen acc).2.1.map (·.doi)).Nodup
        ∧ (∀ r ∈ (processPage ps seen acc).2.1, r ∈ acc ∨ r.doi ∉ seen)
  | [], seen, acc, hsub, hnd => ⟨fun _ h => h, hsub, hnd, fun r hr => Or.inl hr⟩
  | p :: ps, seen, acc, hsub, hnd => by
    cases hcat : p.category with
    | none =>
      simp only [processPage, hcat]
      exact ⟨fun _ h => h, hsub, hnd, fun r hr => Or.inl hr⟩
    | some c =>
      simp only [processPage, hcat]
      by_cases hacc : strLower c = "neuroscience" ∧ p.doi ∉ seen
      · rw [if_pos hacc]
        have hsub' : ∀ r ∈ acc ++ [mkPaperRow p c], r.doi ∈ p.doi :: seen := by
          intro r hr
          rcases List.mem_append.mp hr with h | h
          · exact List.mem_cons_of_mem _ (hsub r h)
          · rw [List.mem_singleton.mp h]
            exact List.mem_cons_self _ _
        have hnd' : ((acc ++ [mkPaperRow p c]).map (·.doi)).Nodup := by
          rw [List.map_append, List.nodup_append]
          refine ⟨hnd, by simp, ?_⟩
          intro d hd hmem
          obtain ⟨r, hr, hrd⟩ := List.mem_map.mp hd
          simp only [List.map_cons, List.map_nil, List.mem_singleton, mkPaperRow] at hmem
          apply hacc.2
          rw [← hmem]
          exact hrd ▸ hsub r hr
        obtain ⟨h1, h2, h3, h4⟩ := processPage_spec ps (p.doi :: seen) (acc ++ [mkPaperRow p c])
          hsub' hnd'
        refine ⟨fun d hd => h1 d (List.mem_cons_of_mem _ hd), h2, h3, ?_⟩
        intro r hr
        rcases h4 r hr with h | h
        · rcases List.mem_append.mp h with h' | h'
          · exact Or.inl h'
          · rw [List.mem_singleton.mp h']
            exact Or.inr hacc.2
        · exact Or.inr fun hm => h (List.mem_cons_of_mem _ hm)
      · rw [if_neg hacc]
        exact processPage_spec ps seen acc hsub hnd

/-- Page-loop invariant: the rows collected by `fetchLoop` have pairwise
distinct dois, and each of them was either already collected or had an
unseen doi when the loop started. -/
theorem fetchLoop_spec (api : Nat → Except Unit ApiResponse) :
    ∀ (fuel cursor : Nat) (seen : List String) (acc : List PaperRow) (reqs : Nat),
      (∀ r ∈ acc, r.doi ∈ seen) → (acc.map (·.doi)).Nodup →
      ((fetchLoop api fuel cursor seen acc reqs).1.map (·.doi)).Nodup
        ∧ (∀ r ∈ (fetchLoop api fuel cursor seen acc reqs).1, r ∈ acc ∨ r.doi ∉ seen)
  | 0, _, seen, acc, reqs, _, hnd => ⟨hnd, fun r hr => Or.inl hr⟩
  | fuel + 1, cursor, seen, acc, reqs, hsub, hnd => by
    cases hapi : api cursor with
    | error e =>
      simp only [fetchLoop, hapi]
      exact ⟨hnd, fun r hr => Or.inl hr⟩
    | ok resp =>
      simp only [fetchLoop, hapi]
      by_cases hst : resp.status = some "no posts found"
      · rw [if_pos hst]
        exact ⟨hnd, fun r hr => Or.inl hr⟩
      rw [if_neg hst]
      by_cases hemp : resp.collection = []
      · rw [if_pos hemp]
        exact ⟨hnd, fun r hr => Or.inl hr⟩
      rw [if_neg hemp]
      obtain ⟨h1, h2, h3, h4⟩ := processPage_spec resp.collection seen acc hsub hnd
      by_cases hfail : (processPage resp.collection seen acc).2.2 = false
      · rw [if_pos hfail]
        exact ⟨h3, h4⟩
      rw [if_neg hfail]
      by_cases hshort : resp.collection.length < 100
      · rw [if_pos hshort]
        exact ⟨h3, h4⟩
      rw [if_neg hshort]
      obtain ⟨g1, g2⟩ := fetchLoop_spec api fuel (cursor + resp.collection.length)
        (processPage resp.collection seen acc).1
        (processPage resp.collection seen acc).2.1 (reqs + 1) h2 h3
      refine ⟨g1, ?_⟩
      intro r hr
      rcases g2 r hr with h | h
      · rcases h4 r h with h' | h'
        · exact Or.inl h'
        · exact Or.inr h'
      · exact Or.inr fun hm => h (h1 _ hm)

/-- At most `fuel` more requests are issued. -/
theorem fetchLoop_reqs_le (api : Nat → Except Unit ApiResponse) :
    ∀ (fuel cursor : Nat) (seen : List String) (acc : List PaperRow) (reqs : Nat),
      (fetchLoop api fuel cursor seen acc reqs).2 ≤ reqs + fuel
  | 0, _, _, acc, reqs => Nat.le_add_right _ _
  | fuel + 1, cursor, seen, acc, reqs => by
    cases hapi : api cursor with
    | error e =>
      simp only [fetchLoop, hapi]
      omega
    | ok resp =>
      simp only [fetchLoop, hapi]
      by_cases hst : resp.status = some "no posts found"
      · rw [if_pos hst]; omega
      rw [if_neg hst]
      by_cases hemp : resp.collection = []
      · rw [if_pos hemp]; omega
      rw [if_neg hemp]
      by_cases hfail : (processPage resp.collection seen acc).2.2 = false
      · rw [if_pos hfail]; omega
      rw [if_neg hfail]
      by_cases hshort : resp.collection.length < 100
      · rw [if_pos hshort]; omega
      rw [if_neg hshort]
      have := fetchLoop_reqs_le api fuel (cursor + resp.collection.length)
        (processPage resp.collection seen acc).1
        (processPage resp.collection seen acc).2.1 (reqs + 1)
      omega

/-- A failing request behaves exactly like an empty page. -/
theorem fetchLoop_errToEmpty (api : Nat → Except Unit ApiResponse) :
    ∀ (fuel cursor : Nat) (seen : List String) (acc : List PaperRow) (reqs : Nat),
      fetchLoop api fuel cursor seen acc reqs
        = fetchLoop (errToEmpty api) fuel cursor seen acc reqs
  | 0, _, _, _, _ => rfl
  | fuel + 1, cursor, seen, acc, reqs => by
    cases hapi : api cursor with
    | error e => simp [fetchLoop, errToEmpty, hapi]
    | ok resp =>
      simp only [fetchLoop, errToEmpty, hapi]
      by_cases hst : resp.status = some "no posts found"
      · rw [if_pos hst, if_pos hst]
      rw [if_neg hst, if_neg hst]
      by_cases hemp : resp.collection = []
      · rw [if_pos hemp, if_pos hemp]
      rw [if_neg hemp, if_neg hemp]
      by_cases hfail : (processPage resp.collection seen acc).2.2 = false
      · rw [if_pos hfail, if_pos hfail]
      rw [if_neg hfail, if_neg hfail]
      by_cases hshort : resp.collection.length < 100
      · rw [if_pos hshort, if_pos hshort]
      rw [if_neg hshort, if_neg hshort]
      exact fetchLoop_errToEmpty api fuel (cursor + resp.collection.length) _ _ (reqs + 1)

/-- C6. Ingestion dedupes by identifier: `fetch_papers_range` appends only
rows whose doi is not already in the papers table, the appended rows have
pairwise distinct dois, and the return value is the number of appended
rows (`0` when none). -/
theorem fetch_dedupes_by_doi (api : Nat → Except Unit ApiResponse) (st : AppState) :
    ∃ rows : List PaperRow,
      (fetch_papers_range api st).1.papers = st.papers ++ rows
        ∧ (fetch_papers_range api st).2 = rows.length
        ∧ (∀ r ∈ rows, r.doi ∉ st.papers.map (·.doi))
        ∧ (rows.map (·.doi)).Nodup := by
  unfold fetch_papers_range
  refine ⟨(fetchLoop api 5 0 (st.papers.map (·.doi)) [] 0).1, rfl, rfl, ?_, ?_⟩
  · intro r hr
    rcases (fetchLoop_spec api 5 0 (st.papers.map (·.doi)) [] 0
        (by intro r h; exact absurd h (List.not_mem_nil r)) (by simp)).2 r hr with h | h
    · exact absurd h (List.not_mem_nil r)
    · exact h
  · exact (fetchLoop_spec api 5 0 (st.papers.map (·.doi)) [] 0
      (by intro r h; exact absurd h (List.not_mem_nil r)) (by simp)).1

/-- C7. Dismissal rows are never deleted: `batch_update_all` extends the
seen table by exactly one `(doi, user)` row per trashed doi and removes
nothing, and `fetch_papers_range` leaves it untouched.  The two remaining
operations, `get_shortlist_data` and `get_fresh_stream_by_date`, are pure
reads in the embedding (they return row lists, not states), mirroring the
source, where neither ever calls a write method on the `seen`
worksheet. -/
theorem seen_rows_never_deleted (u ts : String) (sel tr disp : List String)
    (api : Nat → Except Unit ApiResponse) (st : AppState) :
    (batch_update_all u sel tr disp ts st).1.seen
        = st.seen ++ tr.map (fun d => ⟨d, u⟩)
      ∧ (fetch_papers_range api st).1.seen = st.seen :=
  ⟨rfl, rfl⟩

/-- C8. Errors silently truncate the fetch loop without losing earlier
pages: a failing request makes the run of `fetch_papers_range`
indistinguishable from one receiving an empty page there (first conjunct:
the loop stops, no error escapes, rows and count from earlier pages are
kept); and an exception in the middle of processing a page stops the loop
immediately, keeping every row collected up to the raise (second
conjunct). -/
theorem fetch_errors_truncate (api : Nat → Except Unit ApiResponse) (st : AppState) :
    fetch_papers_range api st = fetch_papers_range (errToEmpty api) st
      ∧ (∀ (fuel cursor : Nat) (seen : List String) (acc : List PaperRow) (reqs : Nat)
          (resp : ApiResponse), api cursor = .ok resp →
          ¬ resp.status = some "no posts found" → ¬ resp.collection = [] →
          (processPage resp.collection seen acc).2.2 = false →
          fetchLoop api (fuel + 1) cursor seen acc reqs
            = ((processPage resp.collection seen acc).2.1, reqs + 1)) := by
  constructor
  · simp only [fetch_papers_range, fetchLoop_errToEmpty api]
  · intro fuel cursor seen acc reqs resp hapi hst hemp hfail
    simp only [fetchLoop, hapi, if_neg hst, if_neg hemp, if_pos hfail]

/-- Witness for C8 at a concrete input: page 0 holds one well-formed
neuroscience record followed by a record with no category (whose
`.lower()` raises); the loop stops after one request and keeps the one row
collected before the raise. -/
theorem fetch_errors_truncate_witness :
    apiPartialPage 0 = Except.ok (⟨none, [⟨"10.9", "T", "A", "ab", some "Neuroscience", 7⟩,
        ⟨"10.8", "T2", "A2", "ab2", none, 7⟩]⟩ : ApiResponse)
    ∧ fetchLoop apiPartialPage 5 0 [] [] 0
      = ([mkPaperRow ⟨"10.9", "T", "A", "ab", some "Neuroscience", 7⟩ "Neuroscience"], 1) := by
  refine ⟨rfl, ?_⟩
  rw [(fetch_errors_truncate apiPartialPage ⟨[], [], []⟩).2 4 0 [] [] 0
    ⟨none, [⟨"10.9", "T", "A", "ab", some "Neuroscience", 7⟩,
      ⟨"10.8", "T2", "A2", "ab2", none, 7⟩]⟩ rfl (by decide) (by decide) (by decide)]
  decide

/-- C9. Implicit page cap: one `fetch_papers_range` call issues at most 5
HTTP requests (`for i in range(5)`), and stops earlier on a
`'no posts found'` status, an empty collection, or a cleanly processed page
shorter than 100 records — so papers beyond the first five pages of the
range are silently not ingested by that call. -/
theorem fetch_page_cap (api : Nat → Except Unit ApiResponse) (st : AppState) :
    fetchRequests api st ≤ 5
      ∧ (∀ (fuel cursor : Nat) (seen : List String) (acc : List PaperRow) (reqs : Nat)
          (resp : ApiResponse), api cursor = .ok resp →
          (resp.status = some "no posts found" ∨ resp.collection = []) →
          fetchLoop api (fuel + 1) cursor seen acc reqs = (acc, reqs + 1))
      ∧ (∀ (fuel cursor : Nat) (seen : List String) (acc : List PaperRow) (reqs : Nat)
          (resp : ApiResponse), api cursor = .ok resp →
          ¬ resp.status = some "no posts found" → ¬ resp.collection = [] →
          ¬ (processPage resp.collection seen acc).2.2 = false →
          resp.collection.length < 100 →
          fetchLoop api (fuel + 1) cursor seen acc reqs
            = ((processPage resp.collection seen acc).2.1, reqs + 1)) := by
  refine ⟨fetchLoop_reqs_le api 5 0 _ [] 0, ?_, ?_⟩
  · intro fuel cursor seen acc reqs resp hapi hstop
    rcases hstop with hst | hemp
    · simp only [fetchLoop, hapi, if_pos hst]
    · by_cases hst : resp.status = some "no posts found"
      · simp only [fetchLoop, hapi, if_pos hst]
      · simp only [fetchLoop, hapi, if_neg hst, if_pos hemp]
  · intro fuel cursor seen acc reqs resp hapi hst hemp hfail hshort
    simp only [fetchLoop, hapi, if_neg hst, if_neg hemp, if_neg hfail, if_pos hshort]

/-- Witness for C9 at a concrete input: an API that always answers
`'no posts found'` is asked exactly once, and the cap holds. -/
theorem fetch_page_cap_witness :
    fetchRequests apiNoPosts ⟨[], [], []⟩ ≤ 5
      ∧ fetchLoop apiNoPosts 5 0 [] [] 0 = ([], 1) :=
  ⟨(fetch_page_cap apiNoPosts ⟨[], [], []⟩).1,
    (fetch_page_cap apiNoPosts ⟨[], [], []⟩).2.1 4 0 [] [] 0
      ⟨some "no posts found", []⟩ rfl (Or.inl rfl)⟩

end LabTriage
